import Mathlib

/-!
Shallow embedding of the DesicAi trading agent.

Sources embedded here:
- `src/examples/enhanced_trading.py` (adjust-data validation, layered TP/SL
  placement, streaming early-decision probe, data-freshness gate, decision
  history journal, feishu notification loop);
- `src/standalone_data_collector.py` (order-book message dispatch, kline gap
  detection, trade-pressure aggregation, server time sync).

Python floats are modelled as exact rationals (`ℚ`), millisecond timestamps as
integers, and Python `None` / absent dict keys as `Option`.  External library
calls (Python `json.loads`, `re.search`) are modelled as oracle parameters;
code that lives outside `src/` (`DataManager`) is modelled from the spec and
marked as such in its doc comment.
-/

namespace DesicAi

/-! ## Character and string helpers (Python `str` operations on code points) -/

/-- Whether `pat` is a leading block of `s` (Python `str.startswith` on the
character list). -/
def charsHasPre : List Char → List Char → Bool
  | [], _ => true
  | _ :: _, [] => false
  | p :: ps, c :: cs => p == c && charsHasPre ps cs

/-- Whether `pat` occurs contiguously inside `s` (Python `in` on strings). -/
def charsHasSub (pat : List Char) : List Char → Bool
  | [] => charsHasPre pat []
  | c :: cs => charsHasPre pat (c :: cs) || charsHasSub pat cs

/-- Python `pat in s` for strings. -/
def strHasSub (s pat : String) : Bool := charsHasSub pat.data s.data

/-- Python `s.startswith(pre)`. -/
def strStarts (s pre : String) : Bool := charsHasPre pre.data s.data

/-- Python `s.endswith(suf)`. -/
def strEnds (s suf : String) : Bool := charsHasPre suf.data.reverse s.data.reverse

/-- Python `s.rstrip(chars)`: drop trailing characters from the given set. -/
def rstripChars (cs : List Char) (s : String) : String :=
  String.mk ((s.data.reverse.dropWhile fun c => cs.contains c).reverse)

/-- Whitespace characters stripped by Python `str.strip()` (the ones that can
occur in an LLM text stream). -/
def isPyWhite (c : Char) : Bool :=
  c == ' ' || c == '\t' || c == '\n' || c == '\r'

/-- Python `s.strip()`. -/
def strTrim (s : String) : String :=
  String.mk (((s.data.dropWhile isPyWhite).reverse.dropWhile isPyWhite).reverse)

/-- One step of Python `str.replace` on character lists; the pattern is
`p :: ps`, hence nonempty, which bounds the recursion. -/
def replaceChars (p : Char) (ps rep : List Char) : List Char → List Char
  | [] => []
  | c :: cs =>
    if charsHasPre (p :: ps) (c :: cs) then
      rep ++ replaceChars p ps rep (cs.drop ps.length)
    else
      c :: replaceChars p ps rep cs
termination_by l => l.length
decreasing_by
  · simp only [List.length_drop, List.length_cons]; omega
  · simp only [List.length_cons]; omega

/-- Python `s.replace(pat, rep)` (for a nonempty pattern). -/
def strReplace (s pat rep : String) : String :=
  match pat.data with
  | [] => s
  | p :: ps => String.mk (replaceChars p ps rep.data s.data)

/-! ## C1 — `validate_adjust_data` and layered TP/SL placement
(`src/examples/enhanced_trading.py`) -/

/-- One TP or SL layer as parsed from the LLM JSON: a Python dict whose
`size` / `price` keys may be absent (`none`). -/
structure Layer where
  size : Option ℚ
  price : Option ℚ
deriving DecidableEq

/-- Python `sum(layer.get('size', 0) for layer in layers)`. -/
def sumLayerSizes (layers : List Layer) : ℚ :=
  (layers.map fun l => l.size.getD 0).sum

/-- The per-layer field checks of `validate_adjust_data` step 3, returning the
first error message, if any. -/
def checkLayerFields : List Layer → Option String
  | [] => none
  | l :: ls =>
    if l.size = none ∨ l.price = none then
      some "每层必须包含size和price字段"
    else if l.size.getD 0 ≤ 0 ∨ l.price.getD 0 ≤ 0 then
      some "size和price必须大于0"
    else
      checkLayerFields ls

/-- `EnhancedTradingAgent.validate_adjust_data(adjust_data, total_size)`:
returns `(is_valid, error_message)`.  The sum checks run only on a non-empty
side, exactly as in the source (`if take_profit:` / `if stop_loss:`). -/
def validate_adjust_data (take_profit stop_loss : List Layer) (total_size : ℚ) :
    Bool × String :=
  if take_profit.isEmpty && stop_loss.isEmpty then
    (false, "adjust_data至少需要包含take_profit或stop_loss")
  else if !take_profit.isEmpty && |sumLayerSizes take_profit - total_size| > 1/1000 then
    (false, "止盈size总和 ≠ 持仓")
  else if !stop_loss.isEmpty && |sumLayerSizes stop_loss - total_size| > 1/1000 then
    (false, "止损size总和 ≠ 持仓")
  else
    match checkLayerFields (take_profit ++ stop_loss) with
    | some msg => (false, msg)
    | none => (true, "")

/-- An order issued by the orchestrator: a reduce-only limit order (TP layer)
or a conditional algo order (SL layer). -/
inductive PlacedOrder where
  | tpLimit (posSide : String) (px sz : ℚ)
  | slConditional (posSide : String) (slTriggerPx sz : ℚ)
deriving DecidableEq

/-- `_create_take_profit_layers`: one reduce-only limit order per layer. -/
def _create_take_profit_layers (pos_side : String) (layers : List Layer) :
    List PlacedOrder :=
  layers.map fun l => .tpLimit pos_side (l.price.getD 0) (l.size.getD 0)

/-- `_create_stop_loss_layers`: one conditional algo order per layer. -/
def _create_stop_loss_layers (pos_side : String) (layers : List Layer) :
    List PlacedOrder :=
  layers.map fun l => .slConditional pos_side (l.price.getD 0) (l.size.getD 0)

/-- `_apply_adjust_data`: after cancelling existing orders, place the TP
layers then the SL layers (each side only when non-empty; mapping over the
empty list places nothing, as in the source). -/
def _apply_adjust_data (pos_side : String) (take_profit stop_loss : List Layer) :
    List PlacedOrder :=
  _create_take_profit_layers pos_side take_profit ++
    _create_stop_loss_layers pos_side stop_loss

/-- The per-position body of `execute_adjust_stop`: validate the plan against
the position size; on failure log and `continue` (no orders), otherwise apply
the layered plan. -/
def execute_adjust_stop_for_position (pos_side : String)
    (take_profit stop_loss : List Layer) (total_size : ℚ) : List PlacedOrder :=
  if (validate_adjust_data take_profit stop_loss total_size).1 then
    _apply_adjust_data pos_side take_profit stop_loss
  else
    []

/-! ## C8 — server time sync (`src/standalone_data_collector.py`) -/

/-- One `_sync_server_time` offset sample:
`local_before + (local_after - local_before) // 2 - server_time`
(Python `//` is floor division, `Int.fdiv`). -/
def offsetSample (local_before local_after server_time : ℤ) : ℤ :=
  local_before + (local_after - local_before).fdiv 2 - server_time

/-- The offset chosen by `_sync_server_time`: sort the samples and take
`samples[len(samples) // 2]`; `none` when no sample was collected. -/
def syncOffset (samples : List ℤ) : Option ℤ :=
  if samples.isEmpty then none
  else some ((samples.mergeSort (fun a b => decide (a ≤ b))).getD (samples.length / 2) 0)

/-- `get_corrected_time_ms`: local wall-clock milliseconds minus the offset. -/
def get_corrected_time_ms (local_time_ms offset : ℤ) : ℤ := local_time_ms - offset

/-! ## C9 — decision history journal (`src/examples/enhanced_trading.py`) -/

/-- One journal entry, as both writers construct it:
`{"content": ..., "timestamp": ...}`. -/
structure HistEntry where
  content : String
  timestamp : String
deriving DecidableEq

/-- Python `l[-n:]`. -/
def lastN {α : Type} (n : ℕ) (l : List α) : List α := l.drop (l.length - n)

/-- The journal state: the in-memory `self.ai_decision_history` list and the
parsed contents of `data/ai_decision_history.json`. -/
structure JournalState where
  mem : List HistEntry
  file : List HistEntry
deriving DecidableEq

/-- The journal operations in the source: a well-formed load
(`_load_decision_history`, list file), a failed load (missing list / JSON
error, resets memory), the append in `_save_conversation_async`'s `save_task`
(truncate to the last 10, then write the file), and the append in
`_save_complete_decision` (`pop(0)` when above 10, then `_save_decision_history`
writes the last 10 to the file). -/
inductive JournalOp where
  | load
  | loadFailed
  | saveConversation (e : HistEntry)
  | saveComplete (e : HistEntry)

/-- Python `l[-10:] if len(l) > 10 else l`, the truncation both writers use
for the in-memory tail and for the file contents. -/
def truncTo10 (l : List HistEntry) : List HistEntry :=
  if 10 < l.length then lastN 10 l else l

/-- The `pop(0)` guard of `_save_complete_decision`: drop the head when the
list exceeds 10 entries. -/
def popHeadOver10 (l : List HistEntry) : List HistEntry :=
  if 10 < l.length then l.drop 1 else l

/-- One journal operation applied to the state. -/
def journalStep (st : JournalState) : JournalOp → JournalState
  | .load => { st with mem := lastN 10 st.file }
  | .loadFailed => { st with mem := [] }
  | .saveConversation e =>
    { mem := truncTo10 (st.mem ++ [e]),
      file := truncTo10 (truncTo10 (st.mem ++ [e])) }
  | .saveComplete e =>
    { mem := popHeadOver10 (st.mem ++ [e]),
      file := truncTo10 (popHeadOver10 (st.mem ++ [e])) }

/-- Constructor state: empty history, file created empty on first load. -/
def journalInit : JournalState := { mem := [], file := [] }

/-- Run a sequence of journal operations from startup. -/
def runJournal (ops : List JournalOp) : JournalState :=
  ops.foldl journalStep journalInit

/-! ## C10 — `send_feishu_content` search loop
(`src/examples/enhanced_trading.py`) -/

/-- The fields of a cached historical position read by the matching loop. -/
structure HistPos where
  open_time : ℤ
deriving DecidableEq

/-- One pass of the `for posData in self.cached_historical_positions` search:
the first entry whose stringified `open_time` equals the stringified `posId`. -/
def findPositionByOpenTime (cached : List HistPos) (posId : ℤ) : Option HistPos :=
  cached.find? fun p => toString p.open_time == toString posId

/-- The `while not position` loop of `send_feishu_content`, with explicit
fuel: each iteration re-scans the cached list and the loop exits only on a
match; `none` means the loop has not terminated within `fuel` passes. -/
def feishuSearchLoop (cached : List HistPos) (posId : ℤ) : ℕ → Option HistPos
  | 0 => none
  | fuel + 1 =>
    match findPositionByOpenTime cached posId with
    | some p => some p
    | none => feishuSearchLoop cached posId fuel

/-- Outcome of `send_feishu_content`: skipped (notifications disabled) or a
notification built from the matched position. -/
inductive FeishuOutcome where
  | skipped
  | notified (p : HistPos)
deriving DecidableEq

/-- `send_feishu_content`: return immediately when the feishu webhook is
disabled, otherwise run the unbounded search loop; `none` means the call has
not returned within `fuel` loop passes. -/
def send_feishu_content (feishu_enabled has_webhook : Bool)
    (cached : List HistPos) (posId : ℤ) (fuel : ℕ) : Option FeishuOutcome :=
  if !(feishu_enabled && has_webhook) then some .skipped
  else
    match feishuSearchLoop cached posId fuel with
    | some p => some (.notified p)
    | none => none

/-! ## C4 — data-freshness gate (`src/examples/enhanced_trading.py`) -/

/-- The analysis-result fields the freshness gate determines. -/
structure AnalysisResult where
  signal : String
  reason : String
  success : Bool
deriving DecidableEq

/-- `self.data_freshness_threshold` (seconds), set in the constructor. -/
def data_freshness_threshold : ℚ := 300

/-- One staleness probe of `check_data_freshness` (`none` models a missing /
falsy source; the number interpolated into each issue message is elided). -/
def freshnessIssue (now_ms threshold : ℚ) (ts : Option ℚ)
    (stale_msg : String) (missing : List String) : List String :=
  match ts with
  | some t => if (now_ms - t) / 1000 > threshold then [stale_msg] else []
  | none => missing

/-- The summary step of `check_data_freshness`: fail with a reason prefixed
`"数据滞后: "` when any issue was collected. -/
def freshnessResult (issues : List String) : Bool × String :=
  if issues ≠ [] then (false, "数据滞后: " ++ String.intercalate ", " issues)
  else (true, "数据新鲜度检查通过")

def check_data_freshness (now_ms threshold : ℚ)
    (kline_last_update orderbook_ts pressure_1m_ts : Option ℚ) :
    Bool × String :=
  freshnessResult
    (freshnessIssue now_ms threshold kline_last_update "K线数据滞后 秒"
        ["K线数据无更新记录"] ++
      freshnessIssue now_ms threshold orderbook_ts "订单簿数据滞后 秒" [] ++
      freshnessIssue now_ms threshold pressure_1m_ts "成交压力数据滞后 秒" [])

/-- The head of `run_analysis`: feature extraction failure returns
`HOLD`/数据不足, a failed freshness check aborts the cycle with `HOLD`, and
only otherwise does the cycle continue (to AI analysis, `rest`). -/
def run_analysis (featuresOk : Bool) (now_ms threshold : ℚ)
    (kline_last_update orderbook_ts pressure_1m_ts : Option ℚ)
    (rest : AnalysisResult) : AnalysisResult :=
  if !featuresOk then ⟨"HOLD", "数据不足", false⟩
  else
    let fr := check_data_freshness now_ms threshold kline_last_update
      orderbook_ts pressure_1m_ts
    if !fr.1 then ⟨"HOLD", fr.2, false⟩
    else rest

/-! ## C7 — trade-pressure aggregation (`src/standalone_data_collector.py`) -/

/-- One `books` channel message as decoded by `_process_orderbook`:
`action ∈ {snapshot, update}`, price levels `(price, size)`, `ts`, `seqId`,
`prevSeqId`. -/
structure BookMsg where
  action : String
  bids : List (ℚ × ℚ)
  asks : List (ℚ × ℚ)
  ts : ℤ
  seqId : ℤ
  prevSeqId : ℤ
deriving DecidableEq

/-- The stored per-symbol book (price levels plus metadata). -/
structure RedisBook where
  bids : List (ℚ × ℚ)
  asks : List (ℚ × ℚ)
  timestamp : ℤ
  lastSeqId : ℤ
deriving DecidableEq

/-- Replace the price level if present, else insert it. -/
def upsertLevel (side : List (ℚ × ℚ)) (p sz : ℚ) : List (ℚ × ℚ) :=
  if side.any fun e => decide (e.1 = p) then
    side.map fun e => if e.1 = p then (p, sz) else e
  else side ++ [(p, sz)]

/-- Apply delta levels to one side: size 0 deletes the price level, any other
size upserts it. -/
def applyLevels (levels side : List (ℚ × ℚ)) : List (ℚ × ℚ) :=
  levels.foldl
    (fun acc l =>
      if l.2 = 0 then acc.filter fun e => decide (e.1 ≠ l.1)
      else upsertLevel acc l.1 l.2)
    side

/-- Modelled from the spec: `DataManager.save_orderbook_to_redis` lives in
`src/ai/data_manager.py`, which is not part of the sources; per spec §4.2 a
`snapshot` replaces the per-symbol book and an `update` applies level-wise
(delete on `size == 0`, upsert otherwise), storing the message timestamp and
`lastSeqId := seqId`. -/
def save_orderbook_to_redis (rb : RedisBook) (action : String)
    (bids asks : List (ℚ × ℚ)) (timestamp seqId : ℤ) : RedisBook :=
  if action = "snapshot" then ⟨bids, asks, timestamp, seqId⟩
  else ⟨applyLevels bids rb.bids, applyLevels asks rb.asks, timestamp, seqId⟩

/-- The collector state touched by `_process_orderbook` for one symbol: the
stored book, the `orderbook_initialized` flag, and the warnings logged. -/
structure CollectorState where
  book : RedisBook
  initialized : Bool
  logs : List String
deriving DecidableEq

/-- The warning logged on a sequence reset (`seqId < prevSeqId`). -/
def seqResetLog : String := "订单簿序列重置"

/-- `_process_orderbook`: empty sides return immediately (heartbeat, debug
log only); a `seqId < prevSeqId` update merely logs a warning; a snapshot
replaces the book and sets the initialized flag; an update on an
uninitialized book is dropped, otherwise it is saved. -/
def _process_orderbook (st : CollectorState) (m : BookMsg) : CollectorState :=
  if m.bids.isEmpty && m.asks.isEmpty then st
  else
    let st1 :=
      if m.action = "update" ∧ m.seqId < m.prevSeqId then
        { st with logs := st.logs ++ [seqResetLog] }
      else st
    if m.action = "snapshot" then
      { st1 with
        book := save_orderbook_to_redis st1.book "snapshot" m.bids m.asks m.ts m.seqId
        initialized := true }
    else if m.action = "update" then
      if !st1.initialized then st1
      else
        { st1 with
          book := save_orderbook_to_redis st1.book "update" m.bids m.asks m.ts m.seqId }
    else st1

/-! ## C5 — kline gap detection (`src/standalone_data_collector.py`) -/

/-- Align a millisecond timestamp down to a bar opening:
`(t // bar_interval_ms) * bar_interval_ms`. -/
def alignDown (t barMs : ℕ) : ℕ := t / barMs * barMs

/-- The `while current_ts <= end_time_ms` loop generating the expected bar
openings `s, s + Δ, …` up to `e`. -/
def expectedTimestamps (barMs s e : ℕ) : List ℕ :=
  if e < s then []
  else (List.range ((e - s) / barMs + 1)).map fun i => s + i * barMs

/-- The merge loop of `_detect_missing_ranges`: starting from the accumulator
`(range_start, range_end)`, a timestamp extending the current run advances
`range_end`, anything else emits `(range_start, range_end + Δ)` and starts a
new run; the final run is emitted at the end. -/
def mergeMissing (barMs : ℕ) (range_start range_end : ℕ) :
    List ℕ → List (ℕ × ℕ)
  | [] => [(range_start, range_end + barMs)]
  | t :: ts =>
    if t = range_end + barMs then mergeMissing barMs range_start t ts
    else (range_start, range_end + barMs) :: mergeMissing barMs t t ts

/-- `_detect_missing_ranges`, given the persisted bar openings `existing`. -/
def _detect_missing_ranges (barMs start_raw end_raw : ℕ)
    (existing : List ℕ) : List (ℕ × ℕ) :=
  if existing.isEmpty then [(alignDown start_raw barMs, alignDown end_raw barMs)]
  else
    match (expectedTimestamps barMs (alignDown start_raw barMs)
        (alignDown end_raw barMs)).filter
        (fun ts => !(existing.contains ts)) with
    | [] => []
    | m0 :: ms => mergeMissing barMs m0 m0 ms

/-- The spec's merging of the missing timestamps into maximal contiguous runs
(consecutive elements Δ apart stay in one run). -/
def contiguousRuns (barMs : ℕ) : List ℕ → List (List ℕ)
  | [] => []
  | [x] => [[x]]
  | x :: y :: xs =>
    match contiguousRuns barMs (y :: xs) with
    | g :: gs => if y = x + barMs then (x :: g) :: gs else [x] :: g :: gs
    | [] => [[x]]

/-- A maximal run `[m₁, …, m_k]` rendered as the range `(m₁, m_k + Δ)`. -/
def runToRange (barMs : ℕ) (g : List ℕ) : ℕ × ℕ :=
  (g.headD 0, g.getLastD 0 + barMs)

/-- The gap set as the spec words it, on an explicit missing list: the
maximal contiguous runs, each as a `(first, last + Δ)` range. -/
def specMissingRanges (barMs : ℕ) (missing : List ℕ) : List (ℕ × ℕ) :=
  (contiguousRuns barMs missing).map (runToRange barMs)

/-! ## C2 — streaming early-decision probe
(`src/examples/enhanced_trading.py`) -/

/-- A JSON value, as far as the probe inspects one. -/
inductive JVal where
  | str (s : String)
  | num (q : ℚ)
  | other
deriving DecidableEq

/-- A parsed JSON object: key/value pairs. -/
abbrev JObj := List (String × JVal)

/-- Python `field in early_json`. -/
def hasKey (obj : JObj) (k : String) : Bool := obj.any fun p => p.1 == k

/-- The Python standard-library calls made by `_try_parse_early_decision`,
as oracle parameters: `json.loads` (strict parse, `none` on
`JSONDecodeError`), the `re.search` for `"reason"\s*:\s*"` (match start
position in code points), and the narrow per-field regex extractors. -/
structure ReOracles where
  jsonLoads : String → Option JObj
  searchReason : String → Option ℕ
  reSignal : String → Option String
  reConfidence : String → Option ℕ
  reSize : String → Option ℚ
  reStopLossRate : String → Option ℚ
  reTakeProfitRate : String → Option ℚ
  reHoldingTime : String → Option String
  reAdjustType : String → Option String
  reNewStopLossPrice : String → Option ℚ
  reNewTakeProfitPrice : String → Option ℚ

/-- `buffer.replace('```json', '').replace('```', '').strip()`. -/
def cleanMarkdown (s : String) : String :=
  strTrim (strReplace (strReplace s "```json" "") "```" "")

/-- The closed prefix `_try_parse_early_decision` builds: require the token
`"reason"` in the buffer, clean markdown, find the `"reason"` key, take the
text before it, strip trailing `,\n\r\t ` and close the object with `}`
unless it already ends in one. -/
def closedPrefixFrom (o : ReOracles) (buffer : String) : Option String :=
  if !(strHasSub buffer "\"reason\"") then none
  else
    match o.searchReason (cleanMarkdown buffer) with
    | none => none
    | some reason_start =>
      let before1 := String.mk ((cleanMarkdown buffer).data.take reason_start)
      let before2 := rstripChars [',', '\n', '\r', '\t', ' '] before1
      some (if strEnds before2 "\x7d" then before2 else before2 ++ "\x7d")

/-- A field found by one narrow regex, or nothing. -/
def optField (k : String) (v : Option JVal) : JObj :=
  match v with
  | some x => [(k, x)]
  | none => []

/-- The regex fallback of `_try_parse_early_decision`: extract the known
scalar fields one by one. -/
def regexExtractFields (o : ReOracles) (s : String) : JObj :=
  optField "signal" ((o.reSignal s).map JVal.str) ++
    optField "confidence" ((o.reConfidence s).map fun n => JVal.num (n : ℚ)) ++
    optField "size" ((o.reSize s).map JVal.num) ++
    optField "stop_loss_rate" ((o.reStopLossRate s).map JVal.num) ++
    optField "take_profit_rate" ((o.reTakeProfitRate s).map JVal.num) ++
    optField "holding_time" ((o.reHoldingTime s).map JVal.str) ++
    optField "adjust_type" ((o.reAdjustType s).map JVal.str) ++
    optField "new_stop_loss_price" ((o.reNewStopLossPrice s).map JVal.num) ++
    optField "new_take_profit_price" ((o.reNewTakeProfitPrice s).map JVal.num)

/-- `_try_parse_early_decision`: build the closed prefix, strictly parse it,
and only on parse failure fall back to the regex field extraction; in both
branches return the object only when `signal` and `confidence` are present. -/
def _try_parse_early_decision (o : ReOracles) (buffer : String) : Option JObj :=
  match closedPrefixFrom o buffer with
  | none => none
  | some before_reason =>
    match o.jsonLoads before_reason with
    | some early_json =>
      if hasKey early_json "signal" && hasKey early_json "confidence" then
        some early_json
      else none
    | none =>
      if hasKey (regexExtractFields o before_reason) "signal" &&
          hasKey (regexExtractFields o before_reason) "confidence" then
        some (regexExtractFields o before_reason)
      else none

/-- The state of the streaming loop in `ai_analysis`: the accumulated
buffer, the `early_decision_triggered` flag, and the early decisions handed
to the orchestrator so far. -/
structure StreamState where
  buffer : String
  early_decision_triggered : Bool
  deliveries : List JObj
deriving DecidableEq

/-- Loop entry state. -/
def streamInit : StreamState := ⟨"", false, []⟩

/-- One chunk of the streaming loop: `none` models a chunk whose
`choices[0].delta` access raises (`continue`), `some ""` a falsy delta
skipped by `if delta_content:`; otherwise append to the buffer and, while not
yet triggered, probe for an early decision, delivering it at most once. -/
def streamStep (o : ReOracles) (st : StreamState) (chunk : Option String) :
    StreamState :=
  match chunk with
  | none => st
  | some c =>
    if c = "" then st
    else
      if !st.early_decision_triggered then
        match _try_parse_early_decision o (st.buffer ++ c) with
        | some d => ⟨st.buffer ++ c, true, st.deliveries ++ [d]⟩
        | none => ⟨st.buffer ++ c, st.early_decision_triggered, st.deliveries⟩
      else ⟨st.buffer ++ c, st.early_decision_triggered, st.deliveries⟩

/-- The whole streaming loop over the chunk list. -/
def runStream (o : ReOracles) (chunks : List (Option String)) : StreamState :=
  chunks.foldl (streamStep o) streamInit

/-- A concrete oracle assignment (strict parse always yields a fixed
two-field object; no regex ever matches), used to exercise the stream. -/
def witnessOracles : ReOracles where
  jsonLoads := fun _ => some [("signal", JVal.str "HOLD"), ("confidence", JVal.other)]
  searchReason := fun _ => some 0
  reSignal := fun _ => none
  reConfidence := fun _ => none
  reSize := fun _ => none
  reStopLossRate := fun _ => none
  reTakeProfitRate := fun _ => none
  reHoldingTime := fun _ => none
  reAdjustType := fun _ => none
  reNewStopLossPrice := fun _ => none
  reNewTakeProfitPrice := fun _ => none

/-! ## Theorems -/

theorem checkLayerFields_none_iff (ls : List Layer) :
    checkLayerFields ls = none ↔
      ∀ l ∈ ls, l.size ≠ none ∧ l.price ≠ none ∧
        0 < l.size.getD 0 ∧ 0 < l.price.getD 0 := by
  induction ls with
  | nil => simp [checkLayerFields]
  | cons l ls ih =>
    simp only [checkLayerFields, List.mem_cons]
    by_cases h1 : l.size = none ∨ l.price = none
    · rw [if_pos h1]
      constructor
      · intro h; exact (Option.some_ne_none _ h).elim
      · intro h
        rcases h1 with h1 | h1
        · exact absurd h1 (h l (Or.inl rfl)).1
        · exact absurd h1 (h l (Or.inl rfl)).2.1
    · rw [if_neg h1]
      by_cases h2 : l.size.getD 0 ≤ 0 ∨ l.price.getD 0 ≤ 0
      · rw [if_pos h2]
        constructor
        · intro h; exact (Option.some_ne_none _ h).elim
        · intro h
          rcases h2 with h2 | h2
          · exact absurd h2 (not_le.mpr (h l (Or.inl rfl)).2.2.1)
          · exact absurd h2 (not_le.mpr (h l (Or.inl rfl)).2.2.2)
      · rw [if_neg h2]
        push_neg at h1 h2
        rw [ih]
        constructor
        · intro h x hx
          rcases hx with rfl | hx
          · exact ⟨h1.1, h1.2, h2.1, h2.2⟩
          · exact h x hx
        · intro h x hx; exact h x (Or.inr hx)

/-- C1 (counterexample): with an empty take-profit side and a stop-loss side
matching the position, validation passes and an order is placed even though
the sum of take-profit layer sizes (0) is not within 1e-3 of the position
size, refuting the claim as stated. -/
theorem c1_counterexample :
    execute_adjust_stop_for_position "long" [] [⟨some 5, some 100⟩] 5 =
        [PlacedOrder.slConditional "long" 100 5] ∧
      ¬ |sumLayerSizes ([] : List Layer) - (5 : ℚ)| ≤ 1 / 1000 := by
  have hcf : checkLayerFields [(⟨some 5, some 100⟩ : Layer)] = none := by
    simp only [checkLayerFields]
    rw [if_neg (by simp), if_neg (by norm_num)]
  constructor
  · norm_num [execute_adjust_stop_for_position, validate_adjust_data, hcf,
      sumLayerSizes, _apply_adjust_data,
      _create_take_profit_layers, _create_stop_loss_layers]
  · norm_num [sumLayerSizes]

/-- C1 (amended): orders are placed only if the plan passes validation; a
failing validation skips the signal and places no orders; and validation
passes exactly when at least one side is non-empty, each **non-empty** side's
layer sizes sum to the position size within 1e-3, and every layer carries a
strictly positive size and price. -/
theorem c1_validation_gate (pos_side : String) (tp sl : List Layer) (total : ℚ) :
    (execute_adjust_stop_for_position pos_side tp sl total ≠ [] →
      (validate_adjust_data tp sl total).1 = true) ∧
    ((validate_adjust_data tp sl total).1 = false →
      execute_adjust_stop_for_position pos_side tp sl total = []) ∧
    ((validate_adjust_data tp sl total).1 = true ↔
      ((tp ≠ [] ∨ sl ≠ []) ∧
        (tp ≠ [] → |sumLayerSizes tp - total| ≤ 1 / 1000) ∧
        (sl ≠ [] → |sumLayerSizes sl - total| ≤ 1 / 1000) ∧
        ∀ l ∈ tp ++ sl, l.size ≠ none ∧ l.price ≠ none ∧
          0 < l.size.getD 0 ∧ 0 < l.price.getD 0)) := by
  refine ⟨?_, ?_, ?_⟩
  · intro h
    by_cases hb : (validate_adjust_data tp sl total).1 = true
    · exact hb
    · exact absurd (by simp [execute_adjust_stop_for_position, hb]) h
  · intro hb
    simp [execute_adjust_stop_for_position, hb]
  · unfold validate_adjust_data
    split_ifs with h1 h2 h3
    · simp only [Bool.and_eq_true, List.isEmpty_iff] at h1
      constructor
      · intro h; simp at h
      · rintro ⟨hne, -, -, -⟩
        rcases hne with hne | hne
        · exact absurd h1.1 hne
        · exact absurd h1.2 hne
    · simp only [Bool.and_eq_true, Bool.not_eq_true', List.isEmpty_eq_false,
        decide_eq_true_eq] at h2
      constructor
      · intro h; simp at h
      · rintro ⟨-, htp, -, -⟩
        exact absurd (htp h2.1) (not_le.mpr h2.2)
    · simp only [Bool.and_eq_true, Bool.not_eq_true', List.isEmpty_eq_false,
        decide_eq_true_eq] at h3
      constructor
      · intro h; simp at h
      · rintro ⟨-, -, hsl, -⟩
        exact absurd (hsl h3.1) (not_le.mpr h3.2)
    · simp only [Bool.and_eq_true, Bool.not_eq_true', List.isEmpty_eq_false,
        decide_eq_true_eq, not_and, List.isEmpty_iff] at h1 h2 h3
      cases hcf : checkLayerFields (tp ++ sl) with
      | some msg =>
        simp only [hcf]
        constructor
        · intro h; simp at h
        · rintro ⟨-, -, -, hall⟩
          exact absurd ((checkLayerFields_none_iff _).mpr hall) (by simp [hcf])
      | none =>
        simp only [hcf]
        have hne : tp ≠ [] ∨ sl ≠ [] := by
          by_cases htp : tp = []
          · exact Or.inr (h1 htp)
          · exact Or.inl htp
        refine ⟨fun _ => ⟨hne, ?_, ?_, (checkLayerFields_none_iff _).mp hcf⟩,
          fun _ => by simp⟩
        · intro htp; exact not_lt.mp (h2 htp)
        · intro hsl; exact not_lt.mp (h3 hsl)

/-- C1 (witness): a two-sided plan summing to the position size passes
validation, and a take-profit side summing to 3 against a position of 5 is
rejected with no orders placed. -/
theorem c1_witness :
    (validate_adjust_data [⟨some 5, some 110⟩] [⟨some 5, some 90⟩] 5).1 = true ∧
      execute_adjust_stop_for_position "long" [⟨some 3, some 110⟩] [] 5 = [] :=
  ⟨(c1_validation_gate "long" _ _ 5).2.2.mpr
      (by refine ⟨Or.inl (by simp), ?_, ?_, ?_⟩ <;> (norm_num [sumLayerSizes]; try simp)),
    (c1_validation_gate "long" _ _ 5).2.1
      (by norm_num [validate_adjust_data, sumLayerSizes])⟩


/-- C8: the time-sync offset is the median of the collected samples — it is
one of the samples, at least half of them are `≤` it and at least half are
`≥` it (on the run `[0, 0, 300]` it is `0`, not the mean `100`) — and the
corrected time is local time minus the offset. -/
theorem c8_time_sync_median (samples : List ℤ) (m : ℤ)
    (h : syncOffset samples = some m) :
    m ∈ samples ∧
      samples.length ≤ 2 * samples.countP (fun x => decide (x ≤ m)) ∧
      samples.length ≤ 2 * samples.countP (fun x => decide (m ≤ x)) ∧
      syncOffset [0, 0, 300] = some 0 ∧
      ∀ t : ℤ, get_corrected_time_ms t m = t - m := by
  unfold syncOffset at h
  by_cases hne : samples.isEmpty
  · rw [if_pos hne] at h; cases h
  · rw [if_neg hne] at h
    simp only [Option.some.injEq] at h
    set L := samples.mergeSort (fun a b => decide (a ≤ b)) with hL
    have hlen : L.length = samples.length := List.length_mergeSort samples
    have hnil : samples ≠ [] := by simpa [List.isEmpty_eq_false] using hne
    have hn : 0 < samples.length := List.length_pos.mpr hnil
    have hk : samples.length / 2 < L.length := by
      rw [hlen]; exact Nat.div_lt_self hn (by norm_num)
    have hm : L[samples.length / 2] = m := by
      rw [← List.getD_eq_getElem L 0 hk]; exact h
    have hsorted : List.Sorted (fun a b : ℤ => a ≤ b) L :=
      List.sorted_mergeSort' samples
    have hperm : L.Perm samples := List.mergeSort_perm samples _
    refine ⟨?_, ?_, ?_, ?_, fun t => rfl⟩
    · exact hperm.mem_iff.mp (hm ▸ List.getElem_mem hk)
    · have hcount : samples.countP (fun x => decide (x ≤ m)) =
          L.countP (fun x => decide (x ≤ m)) := (hperm.countP_eq _).symm
      have hsplit : L.countP (fun x => decide (x ≤ m)) =
          (L.take (samples.length / 2 + 1)).countP (fun x => decide (x ≤ m)) +
          (L.drop (samples.length / 2 + 1)).countP (fun x => decide (x ≤ m)) := by
        rw [← List.countP_append, List.take_append_drop]
      have hall : (L.take (samples.length / 2 + 1)).countP (fun x => decide (x ≤ m)) =
          (L.take (samples.length / 2 + 1)).length := by
        rw [List.countP_eq_length]
        intro x hx
        rw [List.mem_iff_getElem] at hx
        obtain ⟨i, hi, hxi⟩ := hx
        have hi' : i < L.length := lt_of_lt_of_le hi (by
          simp only [List.length_take]; exact min_le_right _ _)
        have hile : i ≤ samples.length / 2 := by
          simp only [List.length_take] at hi; omega
        have := hsorted.rel_get_of_le
          (a := ⟨i, hi'⟩) (b := ⟨samples.length / 2, hk⟩) hile
        simp only [List.get_eq_getElem] at this
        rw [← hxi, List.getElem_take]
        simpa [hm] using this
      have hlt : (L.take (samples.length / 2 + 1)).length = samples.length / 2 + 1 := by
        simp only [List.length_take]; omega
      omega
    · have hcount : samples.countP (fun x => decide (m ≤ x)) =
          L.countP (fun x => decide (m ≤ x)) := (hperm.countP_eq _).symm
      have hsplit : L.countP (fun x => decide (m ≤ x)) =
          (L.take (samples.length / 2)).countP (fun x => decide (m ≤ x)) +
          (L.drop (samples.length / 2)).countP (fun x => decide (m ≤ x)) := by
        rw [← List.countP_append, List.take_append_drop]
      have hall : (L.drop (samples.length / 2)).countP (fun x => decide (m ≤ x)) =
          (L.drop (samples.length / 2)).length := by
        rw [List.countP_eq_length]
        intro x hx
        rw [List.mem_iff_getElem] at hx
        obtain ⟨i, hi, hxi⟩ := hx
        have hi' : samples.length / 2 + i < L.length := by
          simp only [List.length_drop] at hi; omega
        have := hsorted.rel_get_of_le
          (a := ⟨samples.length / 2, hk⟩) (b := ⟨samples.length / 2 + i, hi'⟩)
          (by simp)
        simp only [List.get_eq_getElem] at this
        rw [← hxi, List.getElem_drop]
        simpa [hm] using this
      have hlt : (L.drop (samples.length / 2)).length =
          L.length - samples.length / 2 := by simp
      omega
    · unfold syncOffset
      rw [if_neg (by simp), List.mergeSort_eq_self (by decide)]
      rfl

/-- C8 (witness): on the sample list `[1, 2, 3]` the chosen offset `2` is a
member with half the samples on each side, and corrected time subtracts it. -/
theorem c8_time_sync_median_witness :
    (2:ℤ) ∈ ([1, 2, 3] : List ℤ) ∧
      ([1, 2, 3] : List ℤ).length ≤
        2 * ([1, 2, 3] : List ℤ).countP (fun x => decide (x ≤ (2:ℤ))) ∧
      ([1, 2, 3] : List ℤ).length ≤
        2 * ([1, 2, 3] : List ℤ).countP (fun x => decide ((2:ℤ) ≤ x)) ∧
      syncOffset [0, 0, 300] = some 0 ∧
      ∀ t : ℤ, get_corrected_time_ms t 2 = t - 2 :=
  c8_time_sync_median [1, 2, 3] 2
    (by unfold syncOffset
        rw [if_neg (by simp), List.mergeSort_eq_self (by decide)]
        rfl)

/-- Auxiliary: `l[-n:]` holds at most `n` entries. -/
theorem lastN_length_le {α : Type} (n : ℕ) (l : List α) : (lastN n l).length ≤ n := by
  simp only [lastN, List.length_drop]; omega

/-- Auxiliary: the writers' truncation always yields at most 10 entries. -/
theorem truncTo10_length_le (l : List HistEntry) : (truncTo10 l).length ≤ 10 := by
  unfold truncTo10
  split
  · exact lastN_length_le 10 l
  · omega

/-- Auxiliary: an operation preserves the ≤10 bound on both the in-memory
list and the file. -/
theorem journalStep_bound (st : JournalState) (op : JournalOp)
    (h : st.mem.length ≤ 10 ∧ st.file.length ≤ 10) :
    (journalStep st op).mem.length ≤ 10 ∧
      (journalStep st op).file.length ≤ 10 := by
  obtain ⟨h1, h2⟩ := h
  cases op with
  | load => exact ⟨lastN_length_le 10 st.file, h2⟩
  | loadFailed => exact ⟨by simp [journalStep], h2⟩
  | saveConversation e =>
    exact ⟨truncTo10_length_le _, truncTo10_length_le _⟩
  | saveComplete e =>
    refine ⟨?_, truncTo10_length_le _⟩
    show (popHeadOver10 (st.mem ++ [e])).length ≤ 10
    unfold popHeadOver10
    split
    · simp only [List.length_drop, List.length_append, List.length_singleton]
      omega
    · omega

/-- Auxiliary: the bound is an invariant of any operation sequence. -/
theorem runJournal_bound_from (ops : List JournalOp) :
    ∀ st : JournalState, st.mem.length ≤ 10 ∧ st.file.length ≤ 10 →
      (ops.foldl journalStep st).mem.length ≤ 10 ∧
        (ops.foldl journalStep st).file.length ≤ 10 := by
  induction ops with
  | nil => intro st h; exact h
  | cons op ops ih =>
    intro st h
    exact ih _ (journalStep_bound st op h)

/-- C9: after any sequence of loads and writes from startup, the in-memory
decision history and the history file each hold at most 10 entries (each
entry carries a `content` string and a `timestamp` string by construction of
`HistEntry`). -/
theorem c9_journal_bound (ops : List JournalOp) :
    (runJournal ops).mem.length ≤ 10 ∧ (runJournal ops).file.length ≤ 10 :=
  runJournal_bound_from ops journalInit (by simp [journalInit])

/-- C10: when notifications are enabled and no cached historical position
matches `posId`, `send_feishu_content` does not return, whatever fuel the
search loop is given; in particular this happens with an empty cache. -/
theorem c10_feishu_nontermination (cached : List HistPos) (posId : ℤ)
    (h : findPositionByOpenTime cached posId = none) :
    ∀ fuel : ℕ, send_feishu_content true true cached posId fuel = none := by
  have hloop : ∀ fuel : ℕ, feishuSearchLoop cached posId fuel = none := by
    intro fuel
    induction fuel with
    | zero => rfl
    | succ n ih => simp [feishuSearchLoop, h, ih]
  intro fuel
  simp [send_feishu_content, hloop fuel]

/-- C10 (witness): with an empty historical-position cache the call has not
returned after 5 loop passes. -/
theorem c10_feishu_nontermination_witness :
    send_feishu_content true true [] 7 5 = none :=
  c10_feishu_nontermination [] 7 rfl 5

/-- Auxiliary: a list starts with its own prefix. -/
theorem charsHasPre_append (p r : List Char) : charsHasPre p (p ++ r) = true := by
  induction p with
  | nil => rfl
  | cons c cs ih => simp [charsHasPre, ih]

/-- C4: whenever the kline update age, the order-book age or the
trade-pressure age strictly exceeds the freshness threshold (whose default is
300 seconds), `run_analysis` aborts the cycle with `signal=HOLD`,
`success=false` and a reason beginning "数据滞后". -/
theorem c4_freshness_gate (featuresOk : Bool) (now_ms threshold : ℚ)
    (k ob pr : Option ℚ) (rest : AnalysisResult)
    (hf : featuresOk = true)
    (h : (∃ t, k = some t ∧ (now_ms - t) / 1000 > threshold) ∨
         (∃ t, ob = some t ∧ (now_ms - t) / 1000 > threshold) ∨
         (∃ t, pr = some t ∧ (now_ms - t) / 1000 > threshold)) :
    (run_analysis featuresOk now_ms threshold k ob pr rest).signal = "HOLD" ∧
      (run_analysis featuresOk now_ms threshold k ob pr rest).success = false ∧
      strStarts (run_analysis featuresOk now_ms threshold k ob pr rest).reason
        "数据滞后" = true ∧
      data_freshness_threshold = 300 := by
  subst hf
  have hstart : ∀ s : String, strStarts ("数据滞后: " ++ s) "数据滞后" = true := by
    intro s
    have hlit : ("数据滞后: " : String).data =
        ("数据滞后" : String).data ++ (": " : String).data := by decide
    rw [strStarts, String.data_append, hlit, List.append_assoc]
    exact charsHasPre_append _ _
  have hissue : ∀ (t : ℚ) (msg : String) (miss : List String),
      (now_ms - t) / 1000 > threshold →
      freshnessIssue now_ms threshold (some t) msg miss = [msg] := by
    intro t msg miss hlag
    simp [freshnessIssue, hlag]
  have hne : (freshnessIssue now_ms threshold k "K线数据滞后 秒"
        ["K线数据无更新记录"] ++
      freshnessIssue now_ms threshold ob "订单簿数据滞后 秒" [] ++
      freshnessIssue now_ms threshold pr "成交压力数据滞后 秒" []) ≠ [] := by
    rcases h with ⟨t, hk, hlag⟩ | ⟨t, hob, hlag⟩ | ⟨t, hpr, hlag⟩
    · subst hk
      rw [hissue t _ _ hlag]
      simp
    · subst hob
      rw [hissue t _ _ hlag]
      simp
    · subst hpr
      rw [hissue t _ _ hlag]
      simp
  have hcheck : check_data_freshness now_ms threshold k ob pr =
      (false, "数据滞后: " ++ String.intercalate ", "
        (freshnessIssue now_ms threshold k "K线数据滞后 秒"
            ["K线数据无更新记录"] ++
          freshnessIssue now_ms threshold ob "订单簿数据滞后 秒" [] ++
          freshnessIssue now_ms threshold pr "成交压力数据滞后 秒" [])) := by
    unfold check_data_freshness freshnessResult
    rw [if_pos hne]
  unfold run_analysis
  rw [hcheck]
  exact ⟨rfl, rfl, hstart _, rfl⟩

/-- C4 (witness): with a kline last updated 1000 seconds ago against a 300 s
threshold, the cycle aborts with `HOLD`. -/
theorem c4_freshness_gate_witness :
    (run_analysis true 1000000 300 (some 0) none none
        ⟨"OPEN_LONG", "", true⟩).signal = "HOLD" ∧
      (run_analysis true 1000000 300 (some 0) none none
        ⟨"OPEN_LONG", "", true⟩).success = false ∧
      strStarts (run_analysis true 1000000 300 (some 0) none none
        ⟨"OPEN_LONG", "", true⟩).reason "数据滞后" = true ∧
      data_freshness_threshold = 300 :=
  c4_freshness_gate true 1000000 300 (some 0) none none ⟨"OPEN_LONG", "", true⟩
    rfl (Or.inl ⟨0, rfl, by norm_num⟩)

/-- Auxiliary: the runs of a non-empty list form a non-empty list of runs
whose first run starts with the first element. -/
theorem contiguousRuns_cons (barMs : ℕ) (xs : List ℕ) :
    ∀ x : ℕ, ∃ g gs, contiguousRuns barMs (x :: xs) = (x :: g) :: gs := by
  induction xs with
  | nil => intro x; exact ⟨[], [], rfl⟩
  | cons y ys ih =>
    intro x
    obtain ⟨g, gs, hg⟩ := ih y
    by_cases hy : y = x + barMs
    · refine ⟨y :: g, gs, ?_⟩
      rw [contiguousRuns, hg]
      simp [hy]
    · refine ⟨[], (y :: g) :: gs, ?_⟩
      rw [contiguousRuns, hg]
      simp [hy]

/-- Auxiliary: the accumulator-style merge loop of `_detect_missing_ranges`
computes exactly the maximal contiguous runs (with the first run's start
overridden by the accumulator), each rendered as `(first, last + Δ)`. -/
theorem mergeMissing_eq_spec (barMs : ℕ) : ∀ (l : List ℕ) (rs re : ℕ),
    mergeMissing barMs rs re l =
      match contiguousRuns barMs (re :: l) with
      | [] => []
      | g :: gs => (rs, g.getLastD 0 + barMs) :: gs.map (runToRange barMs) := by
  intro l
  induction l with
  | nil => intro rs re; rfl
  | cons t ts ih =>
    intro rs re
    obtain ⟨g, gs, hg⟩ := contiguousRuns_cons barMs ts t
    by_cases ht : t = re + barMs
    · have hcr : contiguousRuns barMs (re :: t :: ts) = (re :: t :: g) :: gs := by
        rw [contiguousRuns, hg]; simp [ht]
      rw [mergeMissing, if_pos ht, ih rs t, hg, hcr]
      simp [List.getLastD_cons]
    · have hcr : contiguousRuns barMs (re :: t :: ts) = [re] :: (t :: g) :: gs := by
        rw [contiguousRuns, hg]; simp [ht]
      rw [mergeMissing, if_neg ht, ih t t, hg, hcr]
      simp [runToRange, List.getLastD_cons]

set_option maxRecDepth 4000 in
/-- C5 (counterexample): on the spec's S2 instance (5m bars, 1 day of
history, persisted {T−10m, T−5m}, T = 172800000) the detector does not return
`[(T−24h, T−15m), (T, T)]`: each range ends one bar after its last missing
opening. -/
theorem c5_counterexample :
    _detect_missing_ranges 300000 86400000 172800000 [172200000, 172500000] ≠
        [(86400000, 171900000), (172800000, 172800000)] ∧
      _detect_missing_ranges 300000 86400000 172800000 [172200000, 172500000] =
        [(86400000, 172200000), (172800000, 173100000)] := by
  constructor
  · decide
  · decide

set_option maxRecDepth 4000 in
/-- C5 (amended): gap detection returns exactly the complement of the
persisted keys within the expected bar openings
`[start_aligned, start_aligned+Δ, …, end_aligned]`, merged into maximal
contiguous runs, each represented as `(first missing, last missing + Δ)` —
except when the persisted set is empty, where the code returns the single
pair `(start_aligned, end_aligned)` whose end is *not* shifted by `Δ`. In
particular the S2 instance yields `[(T−24h, T−10m), (T, T+5m)]`, while an
empty persisted set over two expected bars yields an inclusive end where the
run rendering would add `Δ`. -/
theorem c5_gap_detection (barMs start_raw end_raw : ℕ) (existing : List ℕ) :
    (existing = [] →
      _detect_missing_ranges barMs start_raw end_raw existing =
        [(alignDown start_raw barMs, alignDown end_raw barMs)]) ∧
      (existing ≠ [] →
        _detect_missing_ranges barMs start_raw end_raw existing =
          specMissingRanges barMs
            ((expectedTimestamps barMs (alignDown start_raw barMs)
                (alignDown end_raw barMs)).filter
              fun ts => !(existing.contains ts))) ∧
      _detect_missing_ranges 300000 86400000 172800000 [172200000, 172500000] =
        [(86400000, 172200000), (172800000, 173100000)] ∧
      _detect_missing_ranges 300000 86400000 86700000 [] =
        [(86400000, 86700000)] ∧
      specMissingRanges 300000 (expectedTimestamps 300000 86400000 86700000) =
        [(86400000, 87000000)] := by
  refine ⟨?_, ?_, ?_, ?_, ?_⟩
  · intro he
    unfold _detect_missing_ranges
    rw [if_pos (by simp [he])]
  · intro hne
    unfold _detect_missing_ranges
    rw [if_neg (by simp [hne])]
    cases hfil : (expectedTimestamps barMs (alignDown start_raw barMs)
        (alignDown end_raw barMs)).filter
        (fun ts => !(existing.contains ts)) with
    | nil => rfl
    | cons m0 ms =>
      show mergeMissing barMs m0 m0 ms = specMissingRanges barMs (m0 :: ms)
      rw [mergeMissing_eq_spec]
      obtain ⟨g, gs, hg⟩ := contiguousRuns_cons barMs ms m0
      rw [hg]
      unfold specMissingRanges
      rw [hg]
      simp [runToRange]
  · decide
  · decide
  · decide

/-- C5 (witness): the characterization applied to the S2 instance and to an
empty persisted set. -/
theorem c5_gap_detection_witness :
    _detect_missing_ranges 300000 86400000 172800000 [172200000, 172500000] =
        specMissingRanges 300000
          ((expectedTimestamps 300000 (alignDown 86400000 300000)
              (alignDown 172800000 300000)).filter
            fun ts => !(([172200000, 172500000] : List ℕ).contains ts)) ∧
      _detect_missing_ranges 300000 86400000 86700000 [] =
        [(alignDown 86400000 300000, alignDown 86700000 300000)] :=
  ⟨(c5_gap_detection 300000 86400000 172800000
      [172200000, 172500000]).2.1 (by simp),
    (c5_gap_detection 300000 86400000 86700000 []).1 rfl⟩

/-- C6 (counterexample): an `update` with `prevSeqId == seqId == 12` and
empty sides on a book whose stored `lastSeqId` is 10 leaves the state fully
unchanged — the stored `lastSeqId` stays 10 and is not advanced to 12. -/
theorem c6_counterexample :
    _process_orderbook ⟨⟨[(100, 1)], [], 0, 10⟩, true, []⟩
        ⟨"update", [], [], 99, 12, 12⟩ =
      ⟨⟨[(100, 1)], [], 0, 10⟩, true, []⟩ ∧
    (_process_orderbook ⟨⟨[(100, 1)], [], 0, 10⟩, true, []⟩
        ⟨"update", [], [], 99, 12, 12⟩).book.lastSeqId ≠ 12 := by
  constructor
  · norm_num [_process_orderbook]
  · norm_num [_process_orderbook]

/-- C6 (amended): a heartbeat (empty bids and asks) is a complete no-op —
the price levels are unchanged and the stored `lastSeqId` is *not* advanced
(`_process_orderbook` returns before any store call). -/
theorem c6_heartbeat_noop (st : CollectorState) (m : BookMsg)
    (hb : m.bids = []) (ha : m.asks = []) :
    _process_orderbook st m = st := by
  unfold _process_orderbook
  rw [if_pos (by simp [hb, ha])]

/-- C6 (witness): the heartbeat no-op at a concrete initialized state. -/
theorem c6_heartbeat_noop_witness :
    _process_orderbook ⟨⟨[(100, 1)], [], 0, 10⟩, true, []⟩
        ⟨"update", [], [], 99, 12, 12⟩ =
      ⟨⟨[(100, 1)], [], 0, 10⟩, true, []⟩ :=
  c6_heartbeat_noop _ _ rfl rfl

/-- C3 (counterexample): an `update` with `seqId = 5 < prevSeqId = 10` on an
initialized book leaves `initialized = true` (the flag is not cleared) and
the update is applied rather than dropped (the stored book changes and
`lastSeqId` becomes 5). -/
theorem c3_counterexample :
    (_process_orderbook ⟨⟨[(100, 1)], [(101, 1)], 0, 10⟩, true, []⟩
        ⟨"update", [(100, 2)], [], 5, 5, 10⟩).initialized = true ∧
    (_process_orderbook ⟨⟨[(100, 1)], [(101, 1)], 0, 10⟩, true, []⟩
        ⟨"update", [(100, 2)], [], 5, 5, 10⟩).book.lastSeqId = 5 ∧
    (_process_orderbook ⟨⟨[(100, 1)], [(101, 1)], 0, 10⟩, true, []⟩
        ⟨"update", [(100, 2)], [], 5, 5, 10⟩).book.bids = [(100, 2)] := by
  refine ⟨?_, ?_, ?_⟩ <;>
    norm_num [_process_orderbook, save_orderbook_to_redis, applyLevels,
      upsertLevel, (by decide : ("update" : String) ≠ "snapshot")]

/-- C3 (amended): on an `update` with `seqId < prevSeqId` against an
initialized book, the collector only logs the sequence-reset warning: the
`initialized` flag stays set and the update is applied to the stored book
like any other update (nothing waits for a snapshot). -/
theorem c3_seq_reset_logged_only (st : CollectorState) (m : BookMsg)
    (hinit : st.initialized = true) (hact : m.action = "update")
    (hseq : m.seqId < m.prevSeqId) (hbids : m.bids ≠ []) :
    _process_orderbook st m =
      { book := save_orderbook_to_redis st.book "update" m.bids m.asks m.ts m.seqId
        initialized := true
        logs := st.logs ++ [seqResetLog] } := by
  obtain ⟨book, init, logs⟩ := st
  obtain ⟨act, bids, asks, ts, sq, psq⟩ := m
  simp only at hinit hact hseq hbids ⊢
  subst hact hinit
  simp [_process_orderbook, hseq, List.isEmpty_eq_false.mpr hbids]

/-- C3 (witness): the seq-reset behaviour at a concrete initialized state. -/
theorem c3_seq_reset_logged_only_witness :
    _process_orderbook ⟨⟨[(100, 1)], [(101, 1)], 0, 10⟩, true, []⟩
        ⟨"update", [(100, 2)], [], 5, 5, 10⟩ =
      { book := save_orderbook_to_redis ⟨[(100, 1)], [(101, 1)], 0, 10⟩
          "update" [(100, 2)] [] 5 5
        initialized := true
        logs := [] ++ [seqResetLog] } :=
  c3_seq_reset_logged_only _ _ rfl rfl (by decide) (by simp)

/-- Auxiliary: the probe returns an object only when both `signal` and
`confidence` are present in it. -/
theorem probe_some_keys (o : ReOracles) (b : String) (d : JObj)
    (h : _try_parse_early_decision o b = some d) :
    hasKey d "signal" = true ∧ hasKey d "confidence" = true := by
  unfold _try_parse_early_decision at h
  cases hp : closedPrefixFrom o b with
  | none =>
    simp only [hp] at h
    exact Option.noConfusion h
  | some pre =>
    simp only [hp] at h
    cases hj : o.jsonLoads pre with
    | some obj =>
      simp only [hj] at h
      split_ifs at h with hk
      obtain rfl := Option.some.inj h
      simpa [Bool.and_eq_true] using hk
    | none =>
      simp only [hj] at h
      split_ifs at h with hk
      obtain rfl := Option.some.inj h
      simpa [Bool.and_eq_true] using hk

/-- Auxiliary: one chunk preserves the once-only delivery invariant. -/
theorem streamStep_inv (o : ReOracles) (st : StreamState) (chunk : Option String)
    (h1 : st.deliveries.length = (if st.early_decision_triggered then 1 else 0))
    (h2 : ∀ d ∈ st.deliveries,
      hasKey d "signal" = true ∧ hasKey d "confidence" = true) :
    ((streamStep o st chunk).deliveries.length =
      (if (streamStep o st chunk).early_decision_triggered then 1 else 0)) ∧
    ∀ d ∈ (streamStep o st chunk).deliveries,
      hasKey d "signal" = true ∧ hasKey d "confidence" = true := by
  cases chunk with
  | none => exact ⟨h1, h2⟩
  | some c =>
    simp only [streamStep]
    split
    · exact ⟨h1, h2⟩
    · split
      · -- not yet triggered: probe the appended buffer
        rename_i hc htr
        have hf : st.early_decision_triggered = false := by simpa using htr
        have h0 : st.deliveries = [] := by
          apply List.length_eq_zero.mp
          rw [h1, hf]
          rfl
        split
        · rename_i d hp
          refine ⟨by simp [h0], ?_⟩
          intro d' hd'
          simp only [h0, List.nil_append, List.mem_singleton] at hd'
          subst hd'
          exact probe_some_keys o _ d' hp
        · exact ⟨by simpa using h1, by simpa using h2⟩
      · exact ⟨by simpa using h1, by simpa using h2⟩

/-- Auxiliary: the once-only delivery invariant holds after any chunk list. -/
theorem runStream_inv (o : ReOracles) (chunks : List (Option String)) :
    ∀ st : StreamState,
      st.deliveries.length = (if st.early_decision_triggered then 1 else 0) →
      (∀ d ∈ st.deliveries,
        hasKey d "signal" = true ∧ hasKey d "confidence" = true) →
      ((chunks.foldl (streamStep o) st).deliveries.length =
        (if (chunks.foldl (streamStep o) st).early_decision_triggered then 1
          else 0)) ∧
      ∀ d ∈ (chunks.foldl (streamStep o) st).deliveries,
        hasKey d "signal" = true ∧ hasKey d "confidence" = true := by
  induction chunks with
  | nil => intro st h1 h2; exact ⟨h1, h2⟩
  | cons c cs ih =>
    intro st h1 h2
    obtain ⟨g1, g2⟩ := streamStep_inv o st c h1 h2
    exact ih _ g1 g2

/-- C2: during one streaming response the early decision is delivered to the
orchestrator exactly once — once when the probe ever fires (delivery count
equals 1 iff the triggered flag is set, else 0) — and only with `signal` and
`confidence` extracted from the closed prefix before `"reason"`; moreover
when the strict JSON parse of that closed prefix succeeds the probe's result
comes from it alone, and the regex field extraction is used only when the
strict parse fails. -/
theorem c2_early_decision (o : ReOracles) :
    (∀ chunks : List (Option String),
      (runStream o chunks).deliveries.length =
        (if (runStream o chunks).early_decision_triggered then 1 else 0)) ∧
    (∀ (chunks : List (Option String)) (d : JObj),
      d ∈ (runStream o chunks).deliveries →
        hasKey d "signal" = true ∧ hasKey d "confidence" = true) ∧
    (∀ (buffer pre : String) (obj : JObj),
      closedPrefixFrom o buffer = some pre →
      o.jsonLoads pre = some obj →
      _try_parse_early_decision o buffer =
        (if hasKey obj "signal" && hasKey obj "confidence" then some obj
          else none)) ∧
    (∀ (buffer pre : String),
      closedPrefixFrom o buffer = some pre →
      o.jsonLoads pre = none →
      _try_parse_early_decision o buffer =
        (if hasKey (regexExtractFields o pre) "signal" &&
            hasKey (regexExtractFields o pre) "confidence" then
          some (regexExtractFields o pre)
        else none)) := by
  refine ⟨?_, ?_, ?_, ?_⟩
  · intro chunks
    exact (runStream_inv o chunks streamInit rfl (by simp [streamInit])).1
  · intro chunks d hd
    exact (runStream_inv o chunks streamInit rfl (by simp [streamInit])).2 d hd
  · intro buffer pre obj hp hj
    unfold _try_parse_early_decision
    simp only [hp, hj]
  · intro buffer pre hp hj
    unfold _try_parse_early_decision
    simp only [hp, hj]

/-- C2 (witness): with concrete oracles whose strict parse yields a
`signal`/`confidence` object, the single delivered object carries both
fields. -/
theorem c2_early_decision_witness :
    hasKey [("signal", JVal.str "HOLD"), ("confidence", JVal.other)]
        "signal" = true ∧
      hasKey [("signal", JVal.str "HOLD"), ("confidence", JVal.other)]
        "confidence" = true :=
  (c2_early_decision witnessOracles).2.1 [some "\"reason\""]
    [("signal", JVal.str "HOLD"), ("confidence", JVal.other)]
    (by decide)

end DesicAi
